import Mathlib

/-
Verification of the wine CSV converter (src/wine_converter_app.py).

Modelling conventions:
* Python strings are lists of characters (`List Char`).  Cells of the
  data frame are taken after Python's `str()` conversion, so a pandas
  NaN cell appears as the string "nan".
* Whitespace is the ASCII whitespace set recognised by Python's
  `str.strip` and the regex class `\s` (the embedding restricts both to
  ASCII, which is all the converter's logic distinguishes).
* Python floats are modelled as exact fractions (`PyRat`, an integer
  numerator over a natural denominator, not necessarily reduced)
  extended with infinities and NaN (`PyFloat`).  Binary rounding and
  overflow of large decimal literals to infinity are not modelled;
  digit-group underscores accepted by `float()` are not modelled either.
  The rational meaning of a fraction is recovered by `PyRat.toRat`.
* A raised Python exception is an `Except PyErr` error value; the
  `except (ValueError, TypeError)` clause of `parse_number` is the
  explicit handling of those two error constructors.
-/

abbrev Cell := List Char

inductive PyErr where
  | valueError
  | typeError
  | overflowError
  deriving DecidableEq, Repr

/-- An exact, possibly unreduced fraction: the finite Python floats that
the converter can actually produce (denominators are powers of ten times
powers of one hundred, hence never zero). -/
structure PyRat where
  num : Int
  den : Nat
  deriving DecidableEq, Repr

/-- The rational value of a `PyRat`. -/
def PyRat.toRat (r : PyRat) : ℚ := (r.num : ℚ) / (r.den : ℚ)

inductive PyFloat where
  | finite (r : PyRat)
  | inf (neg : Bool)
  | nan
  deriving DecidableEq, Repr

inductive PyNum where
  | int (n : ℤ)
  | float (f : PyFloat)
  deriving DecidableEq, Repr

/-- ASCII whitespace, the characters stripped by `str.strip()` and
matched by the regex class `\s` (restricted to ASCII). -/
def isPySpace (c : Char) : Bool :=
  c == ' ' || c == '\t' || c == '\n' || c == '\r' || c == '\x0b' || c == '\x0c'

/-- Python `str.lower()` (ASCII). -/
def lowerL (l : List Char) : List Char := l.map Char.toLower

/-- Python `str.strip()`: drop leading and trailing whitespace. -/
def stripBoth (l : List Char) : List Char :=
  ((l.dropWhile isPySpace).reverse.dropWhile isPySpace).reverse

/-- The test `not text or str(text).strip() == '' or str(text).lower() == 'nan'`
shared by `clean_text` and `parse_number`. -/
def blankOrNan (l : List Char) : Bool :=
  l.isEmpty || (stripBoth l).isEmpty || (lowerL l == "nan".toList)

/-- `text.startswith('"') and text.endswith('"')`. -/
def isQuoteWrapped (l : List Char) : Bool :=
  (l.head? == some '"') && (l.getLast? == some '"')

/-- `text[1:-1]` applied when the string is wrapped in double quotes. -/
def unwrapQuotes (l : List Char) : List Char :=
  if isQuoteWrapped l then (l.drop 1).dropLast else l

/-- `re.sub(r'\s+', ' ', -)`: replace each maximal whitespace run by a
single space.  The flag records whether the previous character belonged
to a run that has already emitted its space. -/
def collapseWS : Bool → List Char → List Char
  | _, [] => []
  | true, c :: cs =>
    if isPySpace c then collapseWS true cs else c :: collapseWS false cs
  | false, c :: cs =>
    if isPySpace c then ' ' :: collapseWS true cs else c :: collapseWS false cs

/-- `re.sub(r'\r\n|\r', '\n', -)`: each CRLF pair and each lone CR
becomes a single LF.  The flag records whether the previous character
was a CR (whose LF partner must then be skipped). -/
def normCRAux : Bool → List Char → List Char
  | _, [] => []
  | prevCr, c :: r =>
    if prevCr && c == '\n' then normCRAux false r
    else (if c == '\r' then '\n' else c) :: normCRAux (c == '\r') r

def normalizeCR (l : List Char) : List Char := normCRAux false l

/-- Python `str.split(sep)` for a one-character separator. -/
def splitOnChar (sep : Char) : List Char → List (List Char)
  | [] => [[]]
  | c :: r =>
    if c = sep then [] :: splitOnChar sep r
    else
      match splitOnChar sep r with
      | [] => [[c]]
      | g :: gs => (c :: g) :: gs

/-- `'\n'.join(-)`. -/
def joinNl : List (List Char) → List Char
  | [] => []
  | [l] => l
  | l :: ls => l ++ '\n' :: joinNl ls

/-- The line pipeline of the `preserve_line_breaks` branch of
`clean_text`: split on LF, strip every line, drop the empty lines. -/
def cleanLines (t : List Char) : List (List Char) :=
  ((splitOnChar '\n' (normalizeCR t)).map stripBoth).filter (fun l => !l.isEmpty)

/-- `clean_text(text, preserve_line_breaks)` from the source. -/
def clean_text (text : List Char) (preserve_line_breaks : Bool) : List Char :=
  if blankOrNan text then [] else
  let t := unwrapQuotes text
  if preserve_line_breaks then joinNl (cleanLines t)
  else collapseWS false (stripBoth t)

/-- Numeric value of a digit string (the `int` conversion of a matched
group of digits). -/
def digitsToNat (l : List Char) : Nat :=
  l.foldl (fun a c => 10 * a + (c.toNat - '0'.toNat)) 0

/-- `some` of the value when the string is a nonempty run of digits. -/
def digitsVal? (l : List Char) : Option Nat :=
  if l.isEmpty || !l.all Char.isDigit then none else some (digitsToNat l)

/-- The regex class `\w` (ASCII): letters, digits and underscore. -/
def isWordChar (c : Char) : Bool := c.isAlphanum || c == '_'

/-- Whether the regex `\b(\d{4})\b` matches at position `i` of `s`:
four digits at `i`, with a word boundary on each side.  (The `getD`
default `' '` is a non-word character, so positions past the end count
as boundaries.) -/
def matchFourAt (s : List Char) (i : Nat) : Bool :=
  (((s.drop i).take 4).length == 4 && ((s.drop i).take 4).all Char.isDigit) &&
  (i == 0 || !isWordChar (s.getD (i - 1) ' ')) &&
  (!isWordChar (s.getD (i + 4) ' '))

/-- `re.search(r'\b(\d{4})\b', s)` followed by `int` on the group:
the leftmost match position wins. -/
def searchFourDigit (s : List Char) : Option Nat :=
  ((List.range s.length).find? (fun i => matchFourAt s i)).map
    (fun i => digitsToNat ((s.drop i).take 4))

/-- The characters of the regex class `[\d.]`. -/
def isNumTokChar (c : Char) : Bool := c.isDigit || c == '.'

/-- `re.search(r'([\d.]+)%?', s)`: the group of the leftmost match,
which is the first maximal run of digits and dots (the optional `%`
never shrinks the greedy group). -/
def percentToken : List Char → Option (List Char)
  | [] => none
  | c :: cs =>
    if isNumTokChar c then some ((c :: cs).takeWhile isNumTokChar)
    else percentToken cs

/-- The integer-and-fraction part of a float literal: `dd`, `dd.dd`,
`.dd` or `dd.` with at least one digit in total. -/
def mantissaVal? (l : List Char) : Option PyRat :=
  match splitOnChar '.' l with
  | [ip] => (digitsVal? ip).map (fun n => PyRat.mk (n : Int) 1)
  | [ip, fp] =>
    if ip.isEmpty && fp.isEmpty then none
    else if !ip.all Char.isDigit || !fp.all Char.isDigit then none
    else some (PyRat.mk ((digitsToNat ip * 10 ^ fp.length + digitsToNat fp : Nat) : Int) (10 ^ fp.length))
  | _ => none

/-- Scale a fraction by `10 ^ z`. -/
def PyRat.scale10 (r : PyRat) (z : Int) : PyRat :=
  if 0 ≤ z then PyRat.mk (r.num * (10 ^ z.toNat : Nat)) r.den
  else PyRat.mk r.num (r.den * 10 ^ (-z).toNat)

def PyRat.neg (r : PyRat) : PyRat := PyRat.mk (-r.num) r.den

/-- The exponent of a float literal: an optional sign and digits. -/
def expVal? (l : List Char) : Option Int :=
  match l with
  | '+' :: r => (digitsVal? r).map (fun n => (n : Int))
  | '-' :: r => (digitsVal? r).map (fun n => -(n : Int))
  | r => (digitsVal? r).map (fun n => (n : Int))

/-- A float literal without sign: mantissa with an optional `e` exponent
(the input is already lowercased). -/
def sciVal? (l : List Char) : Option PyRat :=
  match splitOnChar 'e' l with
  | [m] => mantissaVal? m
  | [m, e] =>
    match mantissaVal? m, expVal? e with
    | some q, some z => some (q.scale10 z)
    | _, _ => none
  | _ => none

/-- Python `float(-)` on a string: strip whitespace, read an optional
sign, accept `inf`/`infinity`/`nan` case-insensitively or a decimal
literal; `none` is the `ValueError` raised on anything else. -/
def pyFloatOfString (l : List Char) : Option PyFloat :=
  let t := lowerL (stripBoth l)
  let signed : Bool × List Char :=
    match t with
    | '-' :: r => (true, r)
    | '+' :: r => (false, r)
    | r => (false, r)
  let neg := signed.1
  let r := signed.2
  if r == "inf".toList || r == "infinity".toList then some (.inf neg)
  else if r == "nan".toList then some .nan
  else
    match sciVal? r with
    | some q => some (.finite (if neg then q.neg else q))
    | none => none

/-- Python `int(-)` on a float: truncation toward zero for finite
values, `OverflowError` on an infinity, `ValueError` on NaN. -/
def pyIntOfFloat : PyFloat → Except PyErr Int
  | .finite q => .ok (q.num.tdiv (q.den : Int))
  | .inf _ => .error .overflowError
  | .nan => .error .valueError

/-- Division by `100.0`. -/
def pyDiv100 : PyFloat → PyFloat
  | .finite q => .finite (PyRat.mk q.num (q.den * 100))
  | .inf b => .inf b
  | .nan => .nan

/-- `parse_number(text, is_float)` from the source.  A `.error` result
is an exception escaping the function: the `try` block only catches
`ValueError` and `TypeError`. -/
def parse_number (text : List Char) (is_float : Bool) : Except PyErr (Option PyNum) :=
  if blankOrNan text then .ok none else
  let cleaned := clean_text text false
  if is_float then
    match percentToken cleaned with
    | some tok =>
      match pyFloatOfString tok with
      | some f => .ok (some (.float (pyDiv100 f)))
      | none => .ok none
    | none =>
      match pyFloatOfString cleaned with
      | some f => .ok (some (.float (pyDiv100 f)))
      | none => .ok none
  else
    match searchFourDigit cleaned with
    | some y => .ok (some (.int (y : Int)))
    | none =>
      match pyFloatOfString cleaned with
      | none => .ok none
      | some f =>
        match pyIntOfFloat f with
        | .ok n => .ok (some (.int n))
        | .error .valueError => .ok none
        | .error .typeError => .ok none
        | .error e => .error e

inductive Wfield where
  | id | referralId | name | producer | originCountry | region
  | grapeType | wineType | harvest | alcoholLevel | agingProcess
  | harmonization | tasteDescription
  deriving DecidableEq, Repr

/-- The `elif` chain of `convert_csv_to_json` that recognises a cleaned,
lowercased column name. -/
def canonOf (c : List Char) : Option Wfield :=
  if c = "id".toList then some .id
  else if c = "referralid".toList then some .referralId
  else if c = "name".toList then some .name
  else if c = "producer".toList then some .producer
  else if c = "origincountry".toList then some .originCountry
  else if c = "region".toList then some .region
  else if c = "grapetype".toList then some .grapeType
  else if c = "winetype".toList then some .wineType
  else if c = "harvest".toList then some .harvest
  else if c = "alcohollevel".toList then some .alcoholLevel
  else if c = "agingprocess".toList then some .agingProcess
  else if c = "harmonization".toList then some .harmonization
  else if c = "tastedescription".toList then some .tasteDescription
  else none

/-- The header-mapping loop: the dictionary is a partial map from fields
to column indices, and a later matching column overwrites an earlier
one, exactly as repeated dict assignment does. -/
def headerMappingAux (i : Nat) (cols : List Cell) (m : Wfield → Option Nat) :
    Wfield → Option Nat :=
  match cols with
  | [] => m
  | c :: cs =>
    headerMappingAux (i + 1) cs
      (match canonOf (lowerL (clean_text c false)) with
       | some k => fun k' => if k' = k then some i else m k'
       | none => m)

def headerMapping (cols : List Cell) : Wfield → Option Nat :=
  headerMappingAux 0 cols (fun _ => none)

/-- The fixed positional defaults of the `header_mapping.get(key, d)`
calls in the row loop. -/
def defaultIdx : Wfield → Nat
  | .id => 0
  | .referralId => 1
  | .name => 2
  | .producer => 3
  | .originCountry => 4
  | .region => 5
  | .grapeType => 6
  | .wineType => 7
  | .harvest => 8
  | .alcoholLevel => 9
  | .agingProcess => 10
  | .harmonization => 11
  | .tasteDescription => 12

/-- `header_mapping.get(key, default)`. -/
def idxFor (m : Wfield → Option Nat) (k : Wfield) : Nat :=
  (m k).getD (defaultIdx k)

/-- `row.iloc[i] if i < len(row) else ""`. -/
def cellAt (row : List Cell) (i : Nat) : Cell :=
  if i < row.length then row.getD i [] else []

/-- One output wine record, fields in the order of the source dict:
id, referralId, name, producer, originCountry, region, grapeType,
wineType, harvest, alcoholLevel, price, importedBy, agingProcess,
harmonization, tasteDescription. -/
structure Wine where
  id : Option PyNum
  referralId : Option PyNum
  name : List Char
  producer : List Char
  originCountry : List Char
  region : List Char
  grapeType : List Char
  wineType : List Char
  harvest : Option PyNum
  alcoholLevel : Option PyNum
  price : Option PyNum
  importedBy : Option (List Char)
  agingProcess : List Char
  harmonization : List Char
  tasteDescription : List Char
  deriving DecidableEq, Repr

/-- Building the wine dict for one row.  The four `parse_number` calls
are evaluated in source order (id, referralId, harvest, alcoholLevel);
any exception they raise propagates.  `price` and `importedBy` are the
two literal `None` fields. -/
def makeWine (m : Wfield → Option Nat) (row : List Cell) : Except PyErr Wine :=
  match parse_number (cellAt row (idxFor m .id)) false with
  | .error e => .error e
  | .ok idv =>
    match parse_number (cellAt row (idxFor m .referralId)) false with
    | .error e => .error e
    | .ok refv =>
      match parse_number (cellAt row (idxFor m .harvest)) false with
      | .error e => .error e
      | .ok harv =>
        match parse_number (cellAt row (idxFor m .alcoholLevel)) true with
        | .error e => .error e
        | .ok alcv =>
          .ok ⟨idv, refv,
               clean_text (cellAt row (idxFor m .name)) false,
               clean_text (cellAt row (idxFor m .producer)) false,
               clean_text (cellAt row (idxFor m .originCountry)) false,
               clean_text (cellAt row (idxFor m .region)) false,
               clean_text (cellAt row (idxFor m .grapeType)) false,
               clean_text (cellAt row (idxFor m .wineType)) false,
               harv, alcv, none, none,
               clean_text (cellAt row (idxFor m .agingProcess)) false,
               clean_text (cellAt row (idxFor m .harmonization)) true,
               clean_text (cellAt row (idxFor m .tasteDescription)) false⟩

/-- Python truthiness of the possible values of `wine['id']`:
`None` and numeric zero are falsy. -/
def pyTruthyNum : Option PyNum → Bool
  | none => false
  | some (.int n) => !(n == 0)
  | some (.float (.finite q)) => !(q.num == 0)
  | some (.float (.inf _)) => true
  | some (.float .nan) => true

/-- `if wine['name'] or wine['id']`. -/
def keepWine (w : Wine) : Bool := !w.name.isEmpty || pyTruthyNum w.id

/-- The row loop of `convert_csv_to_json`: build each record, append it
when the truthiness test passes; an exception aborts the conversion. -/
def convertRows (m : Wfield → Option Nat) : List (List Cell) → Except PyErr (List Wine)
  | [] => .ok []
  | r :: rs =>
    match makeWine m r with
    | .error e => .error e
    | .ok w =>
      match convertRows m rs with
      | .error e => .error e
      | .ok ws => .ok (if keepWine w then w :: ws else ws)

/-- `convert_csv_to_json(df)` with the data frame split into its column
names and its rows of (stringified) cells. -/
def convert_csv_to_json (cols : List Cell) (rows : List (List Cell)) :
    Except PyErr (List Wine) :=
  convertRows (headerMapping cols) rows

/-- A JSON value, with Python dict insertion order preserved. -/
inductive Json where
  | null
  | str (s : List Char)
  | int (n : Int)
  | num (f : PyFloat)
  | arr (xs : List Json)
  | obj (fields : List (Cell × Json))

def optNumToJson : Option PyNum → Json
  | none => .null
  | some (.int n) => .int n
  | some (.float f) => .num f

/-- The JSON object serialised for one wine record. -/
def wineToJson (w : Wine) : Json :=
  .obj [("id".toList, optNumToJson w.id),
        ("referralId".toList, optNumToJson w.referralId),
        ("name".toList, .str w.name),
        ("producer".toList, .str w.producer),
        ("originCountry".toList, .str w.originCountry),
        ("region".toList, .str w.region),
        ("grapeType".toList, .str w.grapeType),
        ("wineType".toList, .str w.wineType),
        ("harvest".toList, optNumToJson w.harvest),
        ("alcoholLevel".toList, optNumToJson w.alcoholLevel),
        ("price".toList, .null),
        ("importedBy".toList, .null),
        ("agingProcess".toList, .str w.agingProcess),
        ("harmonization".toList, .str w.harmonization),
        ("tasteDescription".toList, .str w.tasteDescription)]

/-- One static steak entry; in the source every entry has
producer "Puro Taglio", originCountry "Brasil", breed "Angus", empty
tasteDescription, price 0 and referralId equal to id. -/
def steakJson (i : Int) (nm cut : List Char) : Json :=
  .obj [("id".toList, .int i),
        ("name".toList, .str nm),
        ("producer".toList, .str ("Puro Taglio".toList)),
        ("cutType".toList, .str cut),
        ("originCountry".toList, .str ("Brasil".toList)),
        ("breed".toList, .str ("Angus".toList)),
        ("tasteDescription".toList, .str []),
        ("price".toList, .int 0),
        ("referralId".toList, .int i)]

/-- The `steaks_data` literal of `create_full_json_structure`. -/
def steaks_data : List Json :=
  [steakJson 2009 ("Short Rib Angus".toList) ("Short Rib".toList),
   steakJson 2026 ("Prime Rib Angus".toList) ("Prime Rib".toList),
   steakJson 2013 ("T-Bone Steak Angus".toList) ("T-Bone Steak".toList),
   steakJson 2004 ("Flat Iron Angus".toList) ("Flat Iron".toList)]

/-- The `sommelier_suggestions` literal of `create_full_json_structure`. -/
def sommelier_suggestions : List Json :=
  [.obj [("name".toList, .str ("Kit Executivo - 10% OFF".toList)),
         ("wineId".toList, .int 3760245210066),
         ("steakId".toList, .int 2009),
         ("id".toList, .str ("executivo".toList))],
   .obj [("name".toList, .str ("Kit Elegante - 15% OFF".toList)),
         ("wineId".toList, .int 7798145140141),
         ("steakId".toList, .int 2026),
         ("id".toList, .str ("elegante".toList))],
   .obj [("name".toList, .str ("Kit Premium - 15% OFF".toList)),
         ("wineId".toList, .int 8052080990001),
         ("steakId".toList, .int 2013),
         ("id".toList, .str ("premium".toList))]]

/-- `create_full_json_structure(wines_data)` from the source. -/
def create_full_json_structure (wines_data : List Wine) : Json :=
  .obj [("wine".toList, .arr (wines_data.map wineToJson)),
        ("steak".toList, .arr steaks_data),
        ("sommelierSuggestions".toList, .arr sommelier_suggestions)]

def jsonTopKeys : Json → List Cell
  | .obj fs => fs.map Prod.fst
  | _ => []

def jsonLookup : Json → Cell → Option Json
  | .obj fs, k => List.lookup k fs
  | _, _ => none

def jsonArrLen : Option Json → Option Nat
  | some (.arr xs) => some xs.length
  | _ => none

def exceptIsOk {ε α : Type} : Except ε α → Bool
  | .ok _ => true
  | .error _ => false

/-- The spec's plain reading of "the first 4-digit run": a maximal run
of exactly four digits starts at `i` (the neighbours, when they exist,
are not digits; the `getD` default `' '` is not a digit). -/
def specFourRunAt (s : List Char) (i : Nat) : Bool :=
  (((s.drop i).take 4).length == 4 && ((s.drop i).take 4).all Char.isDigit) &&
  (i == 0 || !(s.getD (i - 1) ' ').isDigit) &&
  (!(s.getD (i + 4) ' ').isDigit)

/-- The first maximal run of exactly four digits, read off the spec's
words with no word-boundary condition. -/
def specFirstFourRunPlain (s : List Char) : Option Nat :=
  ((List.range s.length).find? (fun i => specFourRunAt s i)).map
    (fun i => digitsToNat ((s.drop i).take 4))

/-- The amended reading: a maximal run of exactly four digits whose
neighbours are in addition not letters and not underscores. -/
def specIsolatedFourRunAt (s : List Char) (i : Nat) : Bool :=
  (((s.drop i).take 4).length == 4 && ((s.drop i).take 4).all Char.isDigit) &&
  ((i == 0 || !(s.getD (i - 1) ' ').isDigit) && !(s.getD (i + 4) ' ').isDigit) &&
  ((i == 0 || (!(s.getD (i - 1) ' ').isAlpha && !(s.getD (i - 1) ' ' == '_'))) &&
   (!(s.getD (i + 4) ' ').isAlpha && !(s.getD (i + 4) ' ' == '_')))

def specFirstIsolatedFourRun (s : List Char) : Option Nat :=
  ((List.range s.length).find? (fun i => specIsolatedFourRunAt s i)).map
    (fun i => digitsToNat ((s.drop i).take 4))

/-- The spec's words "integer parsing of the whole cleaned string":
Python `int(-)` on a string, which accepts only an optional sign and
digits (after stripping whitespace). -/
def specIntParse (l : List Char) : Option Int :=
  match stripBoth l with
  | '+' :: r => (digitsVal? r).map (fun n => (n : Int))
  | '-' :: r => (digitsVal? r).map (fun n => -(n : Int))
  | r => (digitsVal? r).map (fun n => (n : Int))

/-- Year-mode result read off the amended spec: the first isolated
four-digit run, else the cleaned string parsed as a float and truncated
toward zero, absent on a parse failure.  (On the inputs where the code
raises instead of returning, this value is never compared with it.) -/
def specYearResult (s : List Char) : Option PyNum :=
  if blankOrNan s then none else
  match specFirstIsolatedFourRun (clean_text s false) with
  | some y => some (.int (y : Int))
  | none =>
    match pyFloatOfString (clean_text s false) with
    | some (.finite q) => some (.int (q.num.tdiv (q.den : Int)))
    | _ => none

/-- Spec side of the header mapping: the index of the last column whose
normalised name equals the canonical name `k`. -/
def specLastMatchIdx (cols : List Cell) (k : Wfield) : Option Nat :=
  (((cols.enum).filter
      (fun p => decide (canonOf (lowerL (clean_text p.2 false)) = some k))).map
    Prod.fst).getLast?

/-- The fixed fallback column index listed by the spec for each
canonical field. -/
def specFallbackIdx : Wfield → Nat
  | .id => 0
  | .referralId => 1
  | .name => 2
  | .producer => 3
  | .originCountry => 4
  | .region => 5
  | .grapeType => 6
  | .wineType => 7
  | .harvest => 8
  | .alcoholLevel => 9
  | .agingProcess => 10
  | .harmonization => 11
  | .tasteDescription => 12

/-- Whether a string begins with a `[\d.]` character, i.e. carries a
leading numeric token. -/
def headNumTok : List Char → Bool
  | [] => false
  | c :: _ => isNumTokChar c

/-- The head, when present, is not whitespace. -/
def headNonSpace : List Char → Bool
  | [] => true
  | c :: _ => !isPySpace c

/-- The last character, when present, is not whitespace. -/
def endsOK : List Char → Bool
  | [] => true
  | [c] => !isPySpace c
  | _ :: c :: r => endsOK (c :: r)

/-- Every whitespace character is a single `' '` not followed by more
whitespace: the shape of a collapsed string. -/
def okChain : List Char → Bool
  | [] => true
  | [c] => !isPySpace c || c == ' '
  | c :: c2 :: r => (!isPySpace c || (c == ' ' && !isPySpace c2)) && okChain (c2 :: r)

/-- The record produced from the single-cell row `["0"]` under an empty
header mapping. -/
def wineZero : Wine :=
  ⟨some (.int 0), none, [], [], [], [], [], [], none, none, none, none, [], [], []⟩

/-- The record produced from the single-cell row `["1"]` under an empty
header mapping. -/
def wineOne : Wine :=
  ⟨some (.int 1), none, [], [], [], [], [], [], none, none, none, none, [], [], []⟩

theorem stripBoth_eq_nil_of_all (s : List Char) (h : ∀ c ∈ s, isPySpace c = true) :
    stripBoth s = [] := by
  unfold stripBoth
  rw [List.dropWhile_eq_nil_iff.mpr h]
  rfl

theorem blank_true_of_allspace (s : List Char) (h : ∀ c ∈ s, isPySpace c = true) :
    blankOrNan s = true := by
  unfold blankOrNan
  rw [stripBoth_eq_nil_of_all s h]
  simp

theorem clean_text_of_blank (s : List Char) (b : Bool) (h : blankOrNan s = true) :
    clean_text s b = [] := by
  unfold clean_text
  rw [h]
  rfl

/-- C8: an empty input, a whitespace-only input, or a literal "nan" in
any letter case always cleans to the empty string, in both modes. -/
theorem clean_text_blank_or_nan (s : List Char) (b : Bool)
    (h : s = [] ∨ (∀ c ∈ s, isPySpace c = true) ∨ lowerL s = "nan".toList) :
    clean_text s b = [] := by
  apply clean_text_of_blank
  rcases h with h | h | h
  · subst h; rfl
  · exact blank_true_of_allspace s h
  · unfold blankOrNan
    rw [beq_iff_eq.mpr h]
    simp

/-- Witness for C8 at the concrete input "NaN". -/
theorem clean_text_blank_or_nan_witness : clean_text ("NaN".toList) false = [] :=
  clean_text_blank_or_nan ("NaN".toList) false (Or.inr (Or.inr (by decide)))

/-- C3 (code bug): on the input "inf" in year mode, `parse_number` does
not return an absent value: `int(float('inf'))` raises `OverflowError`,
which the `except (ValueError, TypeError)` clause does not catch, so the
exception escapes, contradicting the claim and the function's own
docstring ("Parse text to number, return None if invalid"). -/
theorem parse_number_raises_on_inf :
    parse_number ("inf".toList) false = .error .overflowError := rfl

/-- C7: the output document always has exactly the three top-level keys
wine, steak and sommelierSuggestions, with 4 steak entries and 3
suggestion entries, whatever the wine list. -/
theorem full_json_structure_shape (ws : List Wine) :
    jsonTopKeys (create_full_json_structure ws) =
      ["wine".toList, "steak".toList, "sommelierSuggestions".toList] ∧
    jsonArrLen (jsonLookup (create_full_json_structure ws) ("steak".toList)) = some 4 ∧
    jsonArrLen (jsonLookup (create_full_json_structure ws) ("sommelierSuggestions".toList)) =
      some 3 :=
  ⟨rfl, rfl, rfl⟩

/-- C2 counterexample: cleaning is not idempotent.  On `""x""` one pass
strips a single layer of wrapping quotes, leaving `"x"`, and a second
pass strips another, leaving `x`. -/
theorem clean_text_not_idem :
    clean_text (clean_text ("\"\"x\"\"".toList) false) false ≠
      clean_text ("\"\"x\"\"".toList) false := by decide

/-- C1 counterexample: a row whose identifier parses to the number 0
(so the identifier is present, not absent) and whose name is empty is
nevertheless dropped: the conversion of the single row `["0"]` keeps
nothing. -/
theorem dropped_despite_present_id :
    convert_csv_to_json [] [["0".toList]] = .ok [] ∧
    makeWine (headerMapping []) ["0".toList] = .ok wineZero ∧
    wineZero.id = some (.int 0) ∧ wineZero.name = [] :=
  ⟨rfl, rfl, rfl, rfl⟩

/-- C6 counterexample: with the two columns `name` and `NAME`, both
normalise to the canonical name `name`, but the mapping sends the field
to index 1 only: the first matching column is overridden, so not every
matching column is mapped to its canonical field. -/
theorem header_mapping_overrides_first_match :
    canonOf (lowerL (clean_text ("name".toList) false)) = some Wfield.name ∧
    headerMapping ["name".toList, "NAME".toList] Wfield.name = some 1 ∧
    (some 1 : Option Nat) ≠ some 0 :=
  ⟨rfl, rfl, by decide⟩

/-- C4 counterexample: on "a2018" the first maximal four-digit run per
the spec's words is 2018, but the code returns the absent value (the
regex requires word boundaries and `a` is a word character); and on
"13.7" integer parsing of the whole cleaned string fails per the spec's
words, but the code returns 13 (it truncates `float('13.7')`). -/
theorem parse_number_year_counterexample :
    (parse_number ("a2018".toList) false = .ok none ∧
      specFirstFourRunPlain ("a2018".toList) = some 2018) ∧
    (parse_number ("13.7".toList) false = .ok (some (.int 13)) ∧
      specFirstFourRunPlain ("13.7".toList) = none ∧
      specIntParse ("13.7".toList) = none) :=
  ⟨⟨rfl, rfl⟩, ⟨rfl, rfl, rfl⟩⟩

/-- A successful conversion is the order-preserving map-and-filter of
the rows: build the record, keep it exactly when the truthiness test
passes. -/
theorem convertRows_ok_filterMap (m : Wfield → Option Nat) :
    ∀ (rows : List (List Cell)) (wines : List Wine),
      convertRows m rows = .ok wines →
      wines = rows.filterMap (fun r =>
        match makeWine m r with
        | .ok w => if keepWine w then some w else none
        | .error _ => none) := by
  intro rows
  induction rows with
  | nil =>
    intro wines h
    simp only [convertRows] at h
    cases h
    rfl
  | cons r rs ih =>
    intro wines h
    simp only [convertRows] at h
    cases hw : makeWine m r with
    | error e => rw [hw] at h; cases h
    | ok w =>
      rw [hw] at h
      cases hrs : convertRows m rs with
      | error e => rw [hrs] at h; cases h
      | ok ws =>
        rw [hrs] at h
        cases h
        rw [List.filterMap_cons]
        cases hk : keepWine w <;> simp [hw, hk, ih ws hrs]

theorem mem_convertRows (m : Wfield → Option Nat) (rows : List (List Cell))
    (wines : List Wine) (w : Wine) (h : convertRows m rows = .ok wines) :
    w ∈ wines ↔ (∃ r ∈ rows, makeWine m r = .ok w) ∧ keepWine w = true := by
  rw [convertRows_ok_filterMap m rows wines h, List.mem_filterMap]
  constructor
  · rintro ⟨r, hr, hw⟩
    cases hmk : makeWine m r with
    | error e => rw [hmk] at hw; cases hw
    | ok w2 =>
      simp only [hmk] at hw
      cases hk : keepWine w2 with
      | false => rw [hk] at hw; simp at hw
      | true =>
        rw [hk] at hw
        simp only [if_true] at hw
        cases hw
        exact ⟨⟨r, hr, hmk⟩, hk⟩
  · rintro ⟨⟨r, hr, hmk⟩, hk⟩
    refine ⟨r, hr, ?_⟩
    simp only [hmk, hk]
    rfl

/-- C10: the output wine list of a successful conversion is an
order-preserving map-and-filter of the input rows; each retained record
comes from exactly one source row and the relative order of the rows is
preserved. -/
theorem convert_is_filterMap (cols : List Cell) (rows : List (List Cell))
    (wines : List Wine) (h : convert_csv_to_json cols rows = .ok wines) :
    wines = rows.filterMap (fun r =>
      match makeWine (headerMapping cols) r with
      | .ok w => if keepWine w then some w else none
      | .error _ => none) :=
  convertRows_ok_filterMap (headerMapping cols) rows wines h

/-- Witness for C10: converting the single row `["1"]` yields the single
record `wineOne`, and the filterMap expression reproduces it. -/
theorem convert_is_filterMap_witness :
    [wineOne] = [["1".toList]].filterMap (fun r =>
      match makeWine (headerMapping []) r with
      | .ok w => if keepWine w then some w else none
      | .error _ => none) :=
  convert_is_filterMap [] [["1".toList]] [wineOne] rfl

/-- In year mode a present result is always an integer. -/
theorem parse_number_year_int (t : List Char) (v : PyNum)
    (h : parse_number t false = .ok (some v)) : ∃ n : ℤ, v = .int n := by
  unfold parse_number at h
  by_cases hb : blankOrNan t = true
  · rw [if_pos hb] at h; cases h
  · rw [if_neg hb] at h
    simp only [Bool.false_eq_true, if_false] at h
    cases hs : searchFourDigit (clean_text t false) with
    | some y => rw [hs] at h; cases h; exact ⟨y, rfl⟩
    | none =>
      rw [hs] at h
      cases hf : pyFloatOfString (clean_text t false) with
      | none => rw [hf] at h; cases h
      | some f =>
        rw [hf] at h
        cases f with
        | finite q => cases h; exact ⟨_, rfl⟩
        | inf b => cases h
        | nan => cases h

/-- The id field of a built record is the year-mode parse of its id
cell. -/
theorem makeWine_id (m : Wfield → Option Nat) (row : List Cell) (w : Wine)
    (h : makeWine m row = .ok w) :
    parse_number (cellAt row (idxFor m .id)) false = .ok w.id := by
  unfold makeWine at h
  cases h1 : parse_number (cellAt row (idxFor m .id)) false with
  | error e => rw [h1] at h; cases h
  | ok idv =>
    rw [h1] at h
    cases h2 : parse_number (cellAt row (idxFor m .referralId)) false with
    | error e => rw [h2] at h; cases h
    | ok refv =>
      rw [h2] at h
      cases h3 : parse_number (cellAt row (idxFor m .harvest)) false with
      | error e => rw [h3] at h; cases h
      | ok harv =>
        rw [h3] at h
        cases h4 : parse_number (cellAt row (idxFor m .alcoholLevel)) true with
        | error e => rw [h4] at h; cases h
        | ok alcv => rw [h4] at h; cases h; rfl

/-- C1 (amended): a record is in the output of a successful conversion
iff some row builds it and its cleaned name is non-empty or its parsed
identifier is a present, non-zero number. -/
theorem mem_convert_iff (cols : List Cell) (rows : List (List Cell))
    (wines : List Wine) (w : Wine) (h : convert_csv_to_json cols rows = .ok wines) :
    w ∈ wines ↔
      (∃ r ∈ rows, makeWine (headerMapping cols) r = .ok w) ∧
      (w.name ≠ [] ∨ ∃ n : ℤ, w.id = some (.int n) ∧ n ≠ 0) := by
  rw [mem_convertRows (headerMapping cols) rows wines w h]
  constructor
  · rintro ⟨⟨r, hr, hmk⟩, hk⟩
    refine ⟨⟨r, hr, hmk⟩, ?_⟩
    unfold keepWine at hk
    rcases Bool.or_eq_true_iff.mp hk with hname | hid
    · left
      exact List.isEmpty_eq_false.mp (by simpa using hname)
    · right
      have hpid := makeWine_id (headerMapping cols) r w hmk
      cases hw : w.id with
      | none => rw [hw] at hid; cases hid
      | some v =>
        obtain ⟨n, hn⟩ := parse_number_year_int _ v (by rw [hpid, hw])
        subst hn
        rw [hw] at hid
        refine ⟨n, rfl, ?_⟩
        simpa [pyTruthyNum] using hid
  · rintro ⟨⟨r, hr, hmk⟩, hkeep⟩
    refine ⟨⟨r, hr, hmk⟩, ?_⟩
    unfold keepWine
    rcases hkeep with hname | ⟨n, hid, hn⟩
    · exact Bool.or_eq_true_iff.mpr (Or.inl (by simpa [List.isEmpty_eq_false] using hname))
    · exact Bool.or_eq_true_iff.mpr (Or.inr (by simp [hid, pyTruthyNum, hn]))

/-- Witness for C1 at the single row `["1"]`, which produces `wineOne`
with identifier 1. -/
theorem mem_convert_iff_witness :
    wineOne ∈ [wineOne] ↔
      (∃ r ∈ [["1".toList]], makeWine (headerMapping []) r = .ok wineOne) ∧
      (wineOne.name ≠ [] ∨ ∃ n : ℤ, wineOne.id = some (.int n) ∧ n ≠ 0) :=
  mem_convert_iff [] [["1".toList]] [wineOne] wineOne rfl

/-- C9: a row whose identifier cell parses to the number 0 and whose
cleaned name is empty is dropped from the output even though its
identifier is present: numeric truthiness, not presence, decides. -/
theorem zero_id_empty_name_dropped (cols : List Cell) (rows : List (List Cell))
    (wines : List Wine) (r : List Cell) (w : Wine)
    (h : convert_csv_to_json cols rows = .ok wines) (hr : r ∈ rows)
    (hmk : makeWine (headerMapping cols) r = .ok w)
    (hname : w.name = []) (hid : w.id = some (.int 0)) : w ∉ wines := by
  intro hmem
  have hk := (mem_convertRows (headerMapping cols) rows wines w h).mp hmem
  have : keepWine w = true := hk.2
  unfold keepWine at this
  rw [hname, hid] at this
  simpa [pyTruthyNum] using this

/-- Witness for C9 at the single row `["0"]`, which produces `wineZero`
with identifier 0 and empty name; the conversion output is empty. -/
theorem zero_id_empty_name_dropped_witness : wineZero ∉ ([] : List Wine) :=
  zero_id_empty_name_dropped [] [["0".toList]] [] ["0".toList] wineZero rfl
    (by simp) rfl rfl rfl

theorem getLast?_cons_eq {α : Type} (a : α) (l : List α) :
    (a :: l).getLast? = match l.getLast? with
      | some x => some x
      | none => some a := by
  induction l generalizing a with
  | nil => rfl
  | cons b t ih =>
    rw [List.getLast?_cons_cons, ih b]
    cases t.getLast? <;> rfl

theorem headerMappingAux_eq (k : Wfield) :
    ∀ (cs : List Cell) (i : Nat) (m : Wfield → Option Nat),
      headerMappingAux i cs m k =
        match (((List.enumFrom i cs).filter
            (fun p => decide (canonOf (lowerL (clean_text p.2 false)) = some k))).map
          Prod.fst).getLast? with
        | some j => some j
        | none => m k := by
  intro cs
  induction cs with
  | nil => intro i m; rfl
  | cons c cs ih =>
    intro i m
    simp only [headerMappingAux]
    rw [ih]
    have hef : List.enumFrom i (c :: cs) = (i, c) :: List.enumFrom (i + 1) cs := rfl
    rw [hef]
    by_cases hc : canonOf (lowerL (clean_text c false)) = some k
    · rw [List.filter_cons_of_pos (by simpa using hc), List.map_cons, getLast?_cons_eq, hc]
      cases (((List.enumFrom (i + 1) cs).filter
          (fun p => decide (canonOf (lowerL (clean_text p.2 false)) = some k))).map
        Prod.fst).getLast? with
      | none => simp
      | some j => rfl
    · rw [List.filter_cons_of_neg (by simpa using hc)]
      cases hcc : canonOf (lowerL (clean_text c false)) with
      | none => rfl
      | some k2 =>
        have hne : ¬ k = k2 := fun h => hc (by rw [hcc, h])
        cases (((List.enumFrom (i + 1) cs).filter
            (fun p => decide (canonOf (lowerL (clean_text p.2 false)) = some k))).map
          Prod.fst).getLast? with
        | none => simp [hne]
        | some j => rfl

/-- C6 (amended): for every canonical field, the column index actually
used is the index of the last column whose normalised name equals the
canonical name (a later duplicate overrides an earlier one), and the
fixed positional fallback — id 0, referralId 1, name 2, producer 3,
originCountry 4, region 5, grapeType 6, wineType 7, harvest 8,
alcoholLevel 9, agingProcess 10, harmonization 11, tasteDescription 12 —
when no column matches; unrecognised columns contribute nothing. -/
theorem header_mapping_last_or_fallback (cols : List Cell) (k : Wfield) :
    idxFor (headerMapping cols) k =
      match specLastMatchIdx cols k with
      | some i => i
      | none => specFallbackIdx k := by
  unfold idxFor headerMapping specLastMatchIdx
  rw [headerMappingAux_eq]
  have he : List.enum cols = List.enumFrom 0 cols := rfl
  rw [he]
  cases (((List.enumFrom 0 cols).filter
      (fun p => decide (canonOf (lowerL (clean_text p.2 false)) = some k))).map
    Prod.fst).getLast? with
  | none => cases k <;> rfl
  | some j => rfl

theorem blankOrNan_false_of_clean_ne (s : List Char) (b : Bool)
    (h : clean_text s b ≠ []) : blankOrNan s = false := by
  cases hb : blankOrNan s with
  | false => rfl
  | true => exact absurd (clean_text_of_blank s b hb) h

theorem percentToken_of_head (l : List Char) (h : headNumTok l = true) :
    percentToken l = some (l.takeWhile isNumTokChar) := by
  cases l with
  | nil => cases h
  | cons c cs =>
    unfold percentToken
    rw [if_pos]
    exact h

/-- C5: percentage parsing takes the leading numeric token of the
cleaned string — whenever the cleaned string starts with a digit or a
dot, the result is `float` of the maximal `[\d.]` prefix divided by 100,
absent when that `float` conversion fails; in particular "13.5%" parses
to the fraction 135/1000, i.e. 0.135, and "" parses to the absent
value. -/
theorem parse_number_percent_spec :
    (∀ s : List Char, clean_text s false ≠ [] →
      headNumTok (clean_text s false) = true →
      parse_number s true =
        .ok (match pyFloatOfString ((clean_text s false).takeWhile isNumTokChar) with
             | some f => some (.float (pyDiv100 f))
             | none => none)) ∧
    (parse_number ("13.5%".toList) true = .ok (some (.float (.finite ⟨135, 1000⟩))) ∧
      PyRat.toRat ⟨135, 1000⟩ = (0.135 : ℚ)) ∧
    parse_number ([] : List Char) true = .ok none := by
  refine ⟨?_, ⟨rfl, by norm_num [PyRat.toRat]⟩, rfl⟩
  intro s h1 h2
  unfold parse_number
  rw [blankOrNan_false_of_clean_ne s false h1]
  simp only [Bool.false_eq_true, if_false, if_true]
  rw [percentToken_of_head _ h2]
  cases h3 : pyFloatOfString ((clean_text s false).takeWhile isNumTokChar) <;> simp [h3]

/-- Witness for C5's general part at the input "13.5%". -/
theorem parse_number_percent_spec_witness :
    parse_number ("13.5%".toList) true =
      .ok (match pyFloatOfString ((clean_text ("13.5%".toList) false).takeWhile isNumTokChar) with
           | some f => some (.float (pyDiv100 f))
           | none => none) :=
  parse_number_percent_spec.1 ("13.5%".toList) (by decide) (by decide)

theorem bool_boundary_split : ∀ q z a d u a2 d2 u2 : Bool,
    (q && (z || !((a || d) || u)) && !((a2 || d2) || u2)) =
    (q && ((z || !d) && !d2) && ((z || (!a && !u)) && (!a2 && !u2))) := by
  decide

theorem specMatch_eq (s : List Char) (i : Nat) :
    matchFourAt s i = specIsolatedFourRunAt s i := by
  simp only [matchFourAt, specIsolatedFourRunAt, isWordChar, Char.isAlphanum]
  exact bool_boundary_split _ _ _ _ _ _ _ _

theorem find?_congr_fun {α : Type} (p q : α → Bool) (l : List α)
    (h : ∀ a, p a = q a) : l.find? p = l.find? q := by
  have hpq : p = q := funext h
  rw [hpq]

theorem searchFour_eq_spec (s : List Char) :
    searchFourDigit s = specFirstIsolatedFourRun s := by
  unfold searchFourDigit specFirstIsolatedFourRun
  rw [find?_congr_fun _ _ _ (fun i => specMatch_eq s i)]

theorem parse_number_year_cases (s : List Char) :
    parse_number s false = .error .overflowError ∨
    parse_number s false = .ok (specYearResult s) := by
  unfold parse_number specYearResult
  by_cases hb : blankOrNan s = true
  · right; rw [if_pos hb, if_pos hb]
  · rw [if_neg hb, if_neg hb]
    simp only [Bool.false_eq_true, if_false]
    rw [searchFour_eq_spec (clean_text s false)]
    cases hs : specFirstIsolatedFourRun (clean_text s false) with
    | some y => right; simp [hs]
    | none =>
      cases hf : pyFloatOfString (clean_text s false) with
      | none => right; simp [hs, hf]
      | some f =>
        cases f with
        | finite q => right; simp [hs, hf, pyIntOfFloat]
        | inf b => left; simp [hs, hf, pyIntOfFloat]
        | nan => right; simp [hs, hf, pyIntOfFloat]

/-- C4 (amended): year parsing extracts the first maximal run of exactly
four digits that is not adjacent to a word character (letter, digit or
underscore); when no such run exists it falls back to parsing the whole
cleaned string as a float truncated toward zero, absent on a parse
failure (the hypothesis sets aside the inputs on which the fallback
raises instead of returning); in particular "Harvest: 2018 vintage"
parses to 2018 and "abc" to the absent value. -/
theorem parse_number_year_amended :
    (∀ s : List Char, exceptIsOk (parse_number s false) = true →
      parse_number s false = .ok (specYearResult s)) ∧
    parse_number ("Harvest: 2018 vintage".toList) false = .ok (some (.int 2018)) ∧
    parse_number ("abc".toList) false = .ok none := by
  refine ⟨?_, rfl, rfl⟩
  intro s hok
  rcases parse_number_year_cases s with h | h
  · rw [h] at hok; cases hok
  · exact h

/-- Witness for C4's general part at the input "Harvest: 2018 vintage". -/
theorem parse_number_year_amended_witness :
    parse_number ("Harvest: 2018 vintage".toList) false =
      .ok (specYearResult ("Harvest: 2018 vintage".toList)) :=
  parse_number_year_amended.1 ("Harvest: 2018 vintage".toList) rfl

theorem dropWhile_headNonSpace (l : List Char) :
    headNonSpace (l.dropWhile isPySpace) = true := by
  induction l with
  | nil => rfl
  | cons c r ih =>
    rw [List.dropWhile_cons]
    by_cases h : isPySpace c = true
    · rw [if_pos h]; exact ih
    · rw [if_neg h]
      simp [headNonSpace, h]

theorem dropWhile_eq_self_of_head (l : List Char) (h : headNonSpace l = true) :
    l.dropWhile isPySpace = l := by
  cases l with
  | nil => rfl
  | cons c r =>
    have hc : isPySpace c = false := by simpa [headNonSpace] using h
    rw [List.dropWhile_cons, if_neg (by simp [hc])]

theorem headNonSpace_append (xs ys : List Char) (h : xs ≠ []) :
    headNonSpace (xs ++ ys) = headNonSpace xs := by
  cases xs with
  | nil => exact absurd rfl h
  | cons a t => rfl

theorem endsOK_eq_reverse (l : List Char) : endsOK l = headNonSpace l.reverse := by
  induction l with
  | nil => rfl
  | cons c r ih =>
    cases r with
    | nil => rfl
    | cons c2 r2 =>
      have h1 : endsOK (c :: c2 :: r2) = endsOK (c2 :: r2) := rfl
      have h2 : (c :: c2 :: r2).reverse = (c2 :: r2).reverse ++ [c] := by simp
      rw [h1, ih, h2, headNonSpace_append _ _ (by simp)]

theorem dropWhile_append_last (x : Char) (hx : isPySpace x = false) (ys : List Char) :
    (ys ++ [x]).dropWhile isPySpace = ys.dropWhile isPySpace ++ [x] := by
  induction ys with
  | nil => simp [List.dropWhile_cons, hx]
  | cons y ys ih =>
    rw [List.cons_append, List.dropWhile_cons, List.dropWhile_cons]
    by_cases h : isPySpace y = true
    · rw [if_pos h, if_pos h]; exact ih
    · rw [if_neg h, if_neg h, List.cons_append]

theorem stripBoth_headNonSpace (l : List Char) :
    headNonSpace (stripBoth l) = true := by
  unfold stripBoth
  cases hX : l.dropWhile isPySpace with
  | nil => rfl
  | cons x xs =>
    have hx : isPySpace x = false := by
      have := dropWhile_headNonSpace l
      rw [hX] at this
      simpa [headNonSpace] using this
    rw [List.reverse_cons, dropWhile_append_last x hx, List.reverse_append]
    simp [headNonSpace, hx]

theorem stripBoth_endsOK (l : List Char) : endsOK (stripBoth l) = true := by
  unfold stripBoth
  rw [endsOK_eq_reverse, List.reverse_reverse]
  exact dropWhile_headNonSpace _

theorem stripBoth_eq_self (l : List Char) (h1 : headNonSpace l = true)
    (h2 : endsOK l = true) : stripBoth l = l := by
  unfold stripBoth
  rw [dropWhile_eq_self_of_head l h1]
  rw [endsOK_eq_reverse] at h2
  rw [dropWhile_eq_self_of_head l.reverse h2, List.reverse_reverse]

theorem stripBoth_idem (l : List Char) : stripBoth (stripBoth l) = stripBoth l :=
  stripBoth_eq_self _ (stripBoth_headNonSpace l) (stripBoth_endsOK l)

theorem mem_stripBoth (c : Char) (l : List Char) (h : c ∈ stripBoth l) : c ∈ l := by
  unfold stripBoth at h
  rw [List.mem_reverse] at h
  have h2 := (List.dropWhile_sublist (l := (l.dropWhile isPySpace).reverse) isPySpace).subset h
  rw [List.mem_reverse] at h2
  exact (List.dropWhile_sublist isPySpace).subset h2

theorem collapseWS_nil (b : Bool) : collapseWS b [] = [] := by cases b <;> rfl

theorem collapseWS_true_sp (c : Char) (r : List Char) (h : isPySpace c = true) :
    collapseWS true (c :: r) = collapseWS true r := by
  simp [collapseWS, h]

theorem collapseWS_true_nsp (c : Char) (r : List Char) (h : isPySpace c = false) :
    collapseWS true (c :: r) = c :: collapseWS false r := by
  simp [collapseWS, h]

theorem collapseWS_false_sp (c : Char) (r : List Char) (h : isPySpace c = true) :
    collapseWS false (c :: r) = ' ' :: collapseWS true r := by
  simp [collapseWS, h]

theorem collapseWS_false_nsp (c : Char) (r : List Char) (h : isPySpace c = false) :
    collapseWS false (c :: r) = c :: collapseWS false r := by
  simp [collapseWS, h]

theorem collapseWS_true_head (l : List Char) :
    headNonSpace (collapseWS true l) = true := by
  induction l with
  | nil => rfl
  | cons c r ih =>
    cases h : isPySpace c with
    | true => rw [collapseWS_true_sp c r h]; exact ih
    | false => rw [collapseWS_true_nsp c r h]; simp [headNonSpace, h]

theorem collapseWS_false_head (l : List Char) (hl : headNonSpace l = true) :
    headNonSpace (collapseWS false l) = true := by
  cases l with
  | nil => rfl
  | cons c r =>
    have hc : isPySpace c = false := by simpa [headNonSpace] using hl
    rw [collapseWS_false_nsp c r hc]
    simp [headNonSpace, hc]

theorem collapseWS_okChain (l : List Char) : ∀ b, okChain (collapseWS b l) = true := by
  induction l with
  | nil => intro b; rw [collapseWS_nil]; rfl
  | cons c r ih =>
    intro b
    cases h : isPySpace c with
    | true =>
      cases b with
      | true => rw [collapseWS_true_sp c r h]; exact ih true
      | false =>
        rw [collapseWS_false_sp c r h]
        cases hX : collapseWS true r with
        | nil => rfl
        | cons x xs =>
          have hx : isPySpace x = false := by
            have hh := collapseWS_true_head r
            rw [hX] at hh
            simpa [headNonSpace] using hh
          have hok := ih true
          rw [hX] at hok
          simp [okChain, hx, hok]
    | false =>
      have step : ∀ b2, collapseWS b2 (c :: r) = c :: collapseWS false r := by
        intro b2
        cases b2
        · exact collapseWS_false_nsp c r h
        · exact collapseWS_true_nsp c r h
      rw [step b]
      cases hX : collapseWS false r with
      | nil => simp [okChain, h]
      | cons x xs =>
        have hok := ih false
        rw [hX] at hok
        simp [okChain, hok, h]

theorem collapseWS_ne_nil (l : List Char) (hne : l ≠ []) (h : endsOK l = true) :
    ∀ b, collapseWS b l ≠ [] := by
  induction l with
  | nil => exact absurd rfl hne
  | cons c r ih =>
    intro b
    cases r with
    | nil =>
      have hc : isPySpace c = false := by simpa [endsOK] using h
      cases b with
      | true => rw [collapseWS_true_nsp c [] hc]; simp
      | false => rw [collapseWS_false_nsp c [] hc]; simp
    | cons c2 r2 =>
      have h2 : endsOK (c2 :: r2) = true := h
      cases hc : isPySpace c with
      | true =>
        cases b with
        | true =>
          rw [collapseWS_true_sp c _ hc]
          exact ih (by simp) h2 true
        | false =>
          rw [collapseWS_false_sp c _ hc]
          simp
      | false =>
        cases b with
        | true => rw [collapseWS_true_nsp c _ hc]; simp
        | false => rw [collapseWS_false_nsp c _ hc]; simp

theorem endsOK_cons_of_ne (c : Char) (t : List Char) (ht : t ≠ []) :
    endsOK (c :: t) = endsOK t := by
  cases t with
  | nil => exact absurd rfl ht
  | cons x xs => rfl

theorem collapseWS_endsOK (l : List Char) (h : endsOK l = true) :
    ∀ b, endsOK (collapseWS b l) = true := by
  induction l with
  | nil => intro b; rw [collapseWS_nil]; rfl
  | cons c r ih =>
    intro b
    cases r with
    | nil =>
      have hc : isPySpace c = false := by simpa [endsOK] using h
      cases b with
      | true => rw [collapseWS_true_nsp c [] hc]; simpa [endsOK] using hc
      | false => rw [collapseWS_false_nsp c [] hc]; simpa [endsOK] using hc
    | cons c2 r2 =>
      have h2 : endsOK (c2 :: r2) = true := h
      have hnn : ∀ b2, collapseWS b2 (c2 :: r2) ≠ [] :=
        collapseWS_ne_nil (c2 :: r2) (by simp) h2
      cases hc : isPySpace c with
      | true =>
        cases b with
        | true => rw [collapseWS_true_sp c _ hc]; exact ih h2 true
        | false =>
          rw [collapseWS_false_sp c _ hc]
          rw [endsOK_cons_of_ne _ _ (hnn true)]
          exact ih h2 true
      | false =>
        have step : ∀ b2, collapseWS b2 (c :: c2 :: r2) = c :: collapseWS false (c2 :: r2) := by
          intro b2
          cases b2
          · exact collapseWS_false_nsp c _ hc
          · exact collapseWS_true_nsp c _ hc
        rw [step b, endsOK_cons_of_ne _ _ (hnn false)]
        exact ih h2 false

theorem collapseWS_eq_self (l : List Char) (h : okChain l = true) :
    collapseWS false l = l := by
  induction l with
  | nil => rfl
  | cons c r ih =>
    cases r with
    | nil =>
      cases hc : isPySpace c with
      | false => rw [collapseWS_false_nsp c [] hc, collapseWS_nil]
      | true =>
        have hsp : c = ' ' := by
          have hh := h
          simp only [okChain, hc] at hh
          simpa using hh
        rw [collapseWS_false_sp c [] hc, collapseWS_nil, hsp]
    | cons c2 r2 =>
      have hch : (!isPySpace c || (c == ' ' && !isPySpace c2)) = true ∧
          okChain (c2 :: r2) = true := by
        simpa [okChain, Bool.and_eq_true] using h
      have htail := ih hch.2
      cases hc : isPySpace c with
      | false => rw [collapseWS_false_nsp c _ hc, htail]
      | true =>
        have hcc : c = ' ' ∧ isPySpace c2 = false := by
          have hh := hch.1
          rw [hc] at hh
          simpa using hh
        have htt : collapseWS true (c2 :: r2) = c2 :: r2 := by
          rw [collapseWS_true_nsp c2 r2 hcc.2]
          rw [collapseWS_false_nsp c2 r2 hcc.2] at htail
          exact htail
        rw [collapseWS_false_sp c _ hc, htt, hcc.1]

theorem splitOnChar_ne_nil (sep : Char) (l : List Char) : splitOnChar sep l ≠ [] := by
  cases l with
  | nil => simp [splitOnChar]
  | cons c r =>
    unfold splitOnChar
    by_cases h : c = sep
    · rw [if_pos h]; simp
    · rw [if_neg h]
      cases splitOnChar sep r <;> simp

theorem splitOnChar_no_sep (sep : Char) (l : List Char) :
    ∀ g ∈ splitOnChar sep l, sep ∉ g := by
  induction l with
  | nil =>
    intro g hg
    simp [splitOnChar] at hg
    simp [hg]
  | cons c r ih =>
    intro g hg
    unfold splitOnChar at hg
    by_cases h : c = sep
    · rw [if_pos h] at hg
      rcases List.mem_cons.mp hg with h1 | h1
      · simp [h1]
      · exact ih g h1
    · rw [if_neg h] at hg
      cases hs : splitOnChar sep r with
      | nil => exact absurd hs (splitOnChar_ne_nil sep r)
      | cons g0 gs =>
        rw [hs] at hg
        rcases List.mem_cons.mp hg with h1 | h1
        · subst h1
          intro hmem
          rcases List.mem_cons.mp hmem with h2 | h2
          · exact h h2.symm
          · exact ih g0 (hs ▸ List.mem_cons_self g0 gs) h2
        · exact ih g (hs ▸ List.mem_cons_of_mem g0 h1)

theorem splitOnChar_sub (sep : Char) (l : List Char) :
    ∀ g ∈ splitOnChar sep l, ∀ c ∈ g, c ∈ l := by
  induction l with
  | nil =>
    intro g hg c hc
    simp [splitOnChar] at hg
    subst hg
    cases hc
  | cons a r ih =>
    intro g hg c hc
    unfold splitOnChar at hg
    by_cases h : a = sep
    · rw [if_pos h] at hg
      rcases List.mem_cons.mp hg with h1 | h1
      · subst h1; cases hc
      · exact List.mem_cons_of_mem a (ih g h1 c hc)
    · rw [if_neg h] at hg
      cases hs : splitOnChar sep r with
      | nil => exact absurd hs (splitOnChar_ne_nil sep r)
      | cons g0 gs =>
        rw [hs] at hg
        rcases List.mem_cons.mp hg with h1 | h1
        · subst h1
          rcases List.mem_cons.mp hc with h2 | h2
          · exact h2 ▸ List.mem_cons_self a r
          · exact List.mem_cons_of_mem a
              (ih g0 (hs ▸ List.mem_cons_self g0 gs) c h2)
        · exact List.mem_cons_of_mem a (ih g (hs ▸ List.mem_cons_of_mem g0 h1) c hc)

theorem splitOnChar_eq_single (sep : Char) (l : List Char) (h : sep ∉ l) :
    splitOnChar sep l = [l] := by
  induction l with
  | nil => rfl
  | cons c r ih =>
    have hc : ¬ c = sep := fun he => h (he ▸ List.mem_cons_self c r)
    have hr : sep ∉ r := fun hm => h (List.mem_cons_of_mem c hm)
    unfold splitOnChar
    rw [if_neg hc, ih hr]

theorem splitOnChar_cons_pos (sep : Char) (t : List Char) :
    splitOnChar sep (sep :: t) = [] :: splitOnChar sep t := by
  simp [splitOnChar]

theorem splitOnChar_cons_neg (sep c : Char) (t : List Char) (h : ¬ c = sep) :
    splitOnChar sep (c :: t) =
      match splitOnChar sep t with
      | [] => [[c]]
      | g :: gs => (c :: g) :: gs := by
  simp [splitOnChar, h]

theorem splitOnChar_append_sep (sep : Char) (l t : List Char) (h : sep ∉ l) :
    splitOnChar sep (l ++ sep :: t) = l :: splitOnChar sep t := by
  induction l with
  | nil => rw [List.nil_append, splitOnChar_cons_pos]
  | cons c r ih =>
    have hc : ¬ c = sep := fun he => h (he ▸ List.mem_cons_self c r)
    have hr : sep ∉ r := fun hm => h (List.mem_cons_of_mem c hm)
    rw [List.cons_append, splitOnChar_cons_neg sep c _ hc, ih hr]

theorem splitOnChar_joinNl (L : List (List Char)) (h0 : L ≠ [])
    (h : ∀ l ∈ L, ('\n') ∉ l) : splitOnChar '\n' (joinNl L) = L := by
  induction L with
  | nil => exact absurd rfl h0
  | cons l ls ih =>
    cases ls with
    | nil =>
      show splitOnChar '\n' (joinNl [l]) = [l]
      exact splitOnChar_eq_single '\n' l (h l (List.mem_cons_self l []))
    | cons l2 ls2 =>
      have hjoin : joinNl (l :: l2 :: ls2) = l ++ '\n' :: joinNl (l2 :: ls2) := rfl
      rw [hjoin, splitOnChar_append_sep '\n' l _ (h l (List.mem_cons_self l _)),
        ih (by simp) (fun g hg => h g (List.mem_cons_of_mem l hg))]

theorem joinNl_ne_nil (L : List (List Char)) (h0 : L ≠ [])
    (h : ∀ l ∈ L, l ≠ []) : joinNl L ≠ [] := by
  cases L with
  | nil => exact absurd rfl h0
  | cons l ls =>
    cases ls with
    | nil => exact h l (List.mem_cons_self l [])
    | cons l2 ls2 =>
      show l ++ '\n' :: joinNl (l2 :: ls2) ≠ []
      simp

theorem joinNl_head (L : List (List Char))
    (h1 : ∀ l ∈ L, headNonSpace l = true) (h2 : ∀ l ∈ L, l ≠ []) :
    headNonSpace (joinNl L) = true := by
  cases L with
  | nil => rfl
  | cons l ls =>
    have hl1 := h1 l (List.mem_cons_self l ls)
    have hl2 := h2 l (List.mem_cons_self l ls)
    cases ls with
    | nil => exact hl1
    | cons l2 ls2 =>
      show headNonSpace (l ++ '\n' :: joinNl (l2 :: ls2)) = true
      rw [headNonSpace_append l _ hl2]
      exact hl1

theorem endsOK_append_right (xs ys : List Char) (h : ys ≠ []) :
    endsOK (xs ++ ys) = endsOK ys := by
  rw [endsOK_eq_reverse, endsOK_eq_reverse, List.reverse_append,
    headNonSpace_append _ _ (by simpa using h)]

theorem joinNl_endsOK (L : List (List Char))
    (h1 : ∀ l ∈ L, endsOK l = true) (h2 : ∀ l ∈ L, l ≠ []) :
    endsOK (joinNl L) = true := by
  induction L with
  | nil => rfl
  | cons l ls ih =>
    cases ls with
    | nil => exact h1 l (List.mem_cons_self l [])
    | cons l2 ls2 =>
      have hrest : joinNl (l2 :: ls2) ≠ [] :=
        joinNl_ne_nil _ (by simp) (fun g hg => h2 g (List.mem_cons_of_mem l hg))
      show endsOK (l ++ '\n' :: joinNl (l2 :: ls2)) = true
      rw [endsOK_append_right l _ (by simp), endsOK_cons_of_ne _ _ hrest]
      exact ih (fun g hg => h1 g (List.mem_cons_of_mem l hg))
        (fun g hg => h2 g (List.mem_cons_of_mem l hg))

theorem mem_joinNl (L : List (List Char)) (c : Char) (h : c ∈ joinNl L) :
    c = '\n' ∨ ∃ l ∈ L, c ∈ l := by
  induction L with
  | nil => cases h
  | cons l ls ih =>
    cases ls with
    | nil => exact Or.inr ⟨l, List.mem_cons_self l [], h⟩
    | cons l2 ls2 =>
      have hj : joinNl (l :: l2 :: ls2) = l ++ '\n' :: joinNl (l2 :: ls2) := rfl
      rw [hj, List.mem_append] at h
      rcases h with h | h
      · exact Or.inr ⟨l, List.mem_cons_self l _, h⟩
      · rcases List.mem_cons.mp h with h | h
        · exact Or.inl h
        · rcases ih h with h | ⟨g, hg, hcg⟩
          · exact Or.inl h
          · exact Or.inr ⟨g, List.mem_cons_of_mem l hg, hcg⟩

theorem normCRAux_no_cr (l : List Char) : ∀ b, ('\r') ∉ normCRAux b l := by
  induction l with
  | nil => intro b; simp [normCRAux]
  | cons c r ih =>
    intro b
    unfold normCRAux
    by_cases h : (b && c == '\n') = true
    · rw [if_pos h]; exact ih false
    · rw [if_neg h]
      intro hmem
      rcases List.mem_cons.mp hmem with h1 | h1
      · by_cases hc : (c == '\r') = true
        · rw [if_pos hc] at h1; cases h1
        · rw [if_neg hc] at h1
          rw [h1] at hc
          simp at hc
      · exact ih (c == '\r') h1

theorem normCRAux_eq_self (l : List Char) (h : ('\r') ∉ l) : normCRAux false l = l := by
  induction l with
  | nil => rfl
  | cons c r ih =>
    have hc : ¬ (c == '\r') = true := by
      simp only [beq_iff_eq]
      intro he
      exact h (he ▸ List.mem_cons_self c r)
    have hr : ('\r') ∉ r := fun hm => h (List.mem_cons_of_mem c hm)
    unfold normCRAux
    rw [if_neg (by simp), if_neg hc]
    simp only [Bool.not_eq_true] at hc
    rw [hc, ih hr]

theorem clean_collapse_props (s : List Char) :
    headNonSpace (clean_text s false) = true ∧
    endsOK (clean_text s false) = true ∧
    okChain (clean_text s false) = true := by
  unfold clean_text
  by_cases hb : blankOrNan s = true
  · rw [if_pos hb]; exact ⟨rfl, rfl, rfl⟩
  · rw [if_neg hb]
    simp only [Bool.false_eq_true, if_false]
    exact ⟨collapseWS_false_head _ (stripBoth_headNonSpace _),
      collapseWS_endsOK _ (stripBoth_endsOK _) false,
      collapseWS_okChain _ false⟩

theorem blankOrNan_of_props (r : List Char) (hr : r ≠ [])
    (h1 : headNonSpace r = true) (h2 : endsOK r = true)
    (hn : lowerL r ≠ "nan".toList) : blankOrNan r = false := by
  unfold blankOrNan
  rw [stripBoth_eq_self r h1 h2]
  have hn' : (lowerL r == "nan".toList) = false := by
    cases hbe : lowerL r == "nan".toList
    · rfl
    · exact absurd (beq_iff_eq.mp hbe) hn
  rw [hn']
  simp [List.isEmpty_eq_false.mpr hr]

theorem clean_text_idem_collapse (s : List Char)
    (hq : isQuoteWrapped (clean_text s false) = false)
    (hn : lowerL (clean_text s false) ≠ "nan".toList) :
    clean_text (clean_text s false) false = clean_text s false := by
  by_cases hr : clean_text s false = []
  · rw [hr]; rfl
  · obtain ⟨h1, h2, h3⟩ := clean_collapse_props s
    have hb2 : blankOrNan (clean_text s false) = false :=
      blankOrNan_of_props _ hr h1 h2 hn
    set r := clean_text s false with hrdef
    unfold clean_text
    rw [if_neg (by simp [hb2])]
    simp only [Bool.false_eq_true, if_false]
    have hu : unwrapQuotes r = r := by
      unfold unwrapQuotes
      rw [if_neg (by simp [hq])]
    rw [hu, stripBoth_eq_self _ h1 h2, collapseWS_eq_self _ h3]

theorem cleanLines_mem (t : List Char) (l : List Char) (h : l ∈ cleanLines t) :
    l ≠ [] ∧ stripBoth l = l ∧ ('\n') ∉ l ∧ ('\r') ∉ l := by
  unfold cleanLines at h
  have hf := List.mem_filter.mp h
  obtain ⟨g, hg, hgl⟩ := List.mem_map.mp hf.1
  subst hgl
  refine ⟨List.isEmpty_eq_false.mp (by simpa using hf.2), stripBoth_idem g, ?_, ?_⟩
  · intro hmem
    exact splitOnChar_no_sep '\n' (normalizeCR t) g hg (mem_stripBoth _ _ hmem)
  · intro hmem
    exact normCRAux_no_cr t false
      (splitOnChar_sub '\n' (normalizeCR t) g hg '\r' (mem_stripBoth _ _ hmem))

theorem map_stripBoth_eq_self (L : List (List Char))
    (h : ∀ l ∈ L, stripBoth l = l) : L.map stripBoth = L := by
  have h2 : L.map stripBoth = L.map (fun l => l) := List.map_congr_left h
  simpa using h2

theorem cleanLines_joinNl (L : List (List Char))
    (h : ∀ l ∈ L, l ≠ [] ∧ stripBoth l = l ∧ ('\n') ∉ l ∧ ('\r') ∉ l)
    (h0 : L ≠ []) : cleanLines (joinNl L) = L := by
  unfold cleanLines
  have hnocr : ('\r') ∉ joinNl L := by
    intro hmem
    rcases mem_joinNl L '\r' hmem with hc | ⟨l, hl, hcl⟩
    · cases hc
    · exact (h l hl).2.2.2 hcl
  rw [show normalizeCR (joinNl L) = joinNl L from normCRAux_eq_self _ hnocr,
    splitOnChar_joinNl L h0 (fun l hl => (h l hl).2.2.1),
    map_stripBoth_eq_self L (fun l hl => (h l hl).2.1),
    List.filter_eq_self.mpr (fun l hl => by simp [List.isEmpty_eq_false.mpr (h l hl).1])]

theorem clean_text_idem_preserve (s : List Char)
    (hq : isQuoteWrapped (clean_text s true) = false)
    (hn : lowerL (clean_text s true) ≠ "nan".toList) :
    clean_text (clean_text s true) true = clean_text s true := by
  by_cases hr : clean_text s true = []
  · rw [hr]; rfl
  · have hb1 : blankOrNan s = false := blankOrNan_false_of_clean_ne s true hr
    have hform : clean_text s true = joinNl (cleanLines (unwrapQuotes s)) := by
      unfold clean_text
      rw [if_neg (by simp [hb1])]
      rfl
    have hprops : ∀ l ∈ cleanLines (unwrapQuotes s),
        l ≠ [] ∧ stripBoth l = l ∧ ('\n') ∉ l ∧ ('\r') ∉ l :=
      fun l hl => cleanLines_mem _ l hl
    have hL0 : cleanLines (unwrapQuotes s) ≠ [] := by
      intro h0
      rw [hform, h0] at hr
      exact hr rfl
    have hhead : headNonSpace (clean_text s true) = true := by
      rw [hform]
      exact joinNl_head _
        (fun l hl => (hprops l hl).2.1 ▸ stripBoth_headNonSpace l)
        (fun l hl => (hprops l hl).1)
    have hends : endsOK (clean_text s true) = true := by
      rw [hform]
      exact joinNl_endsOK _
        (fun l hl => (hprops l hl).2.1 ▸ stripBoth_endsOK l)
        (fun l hl => (hprops l hl).1)
    have hb2 : blankOrNan (clean_text s true) = false :=
      blankOrNan_of_props _ hr hhead hends hn
    set r := clean_text s true with hrdef
    unfold clean_text
    rw [if_neg (by simp [hb2])]
    simp only [if_true]
    have hu : unwrapQuotes r = r := by
      unfold unwrapQuotes
      rw [if_neg (by simp [hq])]
    rw [hu, hform, cleanLines_joinNl _ hprops hL0]

/-- C2 (amended): cleaning is idempotent in both modes provided the
cleaned result is not itself wrapped in double quotes and is not the
literal "nan" up to letter case — on those outputs a second pass strips
another quote layer or empties the string, as the counterexample
shows. -/
theorem clean_text_idem_unquoted (s : List Char) (b : Bool)
    (hq : isQuoteWrapped (clean_text s b) = false)
    (hn : lowerL (clean_text s b) ≠ "nan".toList) :
    clean_text (clean_text s b) b = clean_text s b := by
  cases b
  · exact clean_text_idem_collapse s hq hn
  · exact clean_text_idem_preserve s hq hn

/-- Witness for C2's amended statement at the input "  hello   world "
in collapse mode. -/
theorem clean_text_idem_unquoted_witness :
    clean_text (clean_text ("  hello   world ".toList) false) false =
      clean_text ("  hello   world ".toList) false :=
  clean_text_idem_unquoted ("  hello   world ".toList) false (by decide) (by decide)
